import Mathlib

/-!
A verification development for the record pipeline of `src/app.py`
(import-FX settlement reconciliation): exclusion filtering
(`filter_unwanted_records`), chronological sorting (`sort_dataframe`) and
month-scoped cumulative payment allocation (`calculate_payment_allocation`).

The embedding models a pandas DataFrame as a `Table`: a schema (`cols`, the
ordered column names) together with positional rows (`List Cell`).  A `Cell`
classifies one spreadsheet value by how the pandas coercions used in the
source treat it:

* `Cell.date d` — a value `pd.to_datetime` parses to the calendar date `d`
  (timestamps carry no intra-day component relevant to the source);
* `Cell.num n`  — a value `pd.to_numeric` parses to the number `n` and that
  is not a date (amounts in the source are integral yen, so `Int`);
* `Cell.str s`  — a string parseable as neither (dates coerce it to `NaT`,
  numerics to `NaN`, string predicates see `s`);
* `Cell.null`   — a missing value (`NaN`/`NaT`).

`sort_dataframe` and `calculate_payment_allocation` assign coerced columns
back into their argument frame (`df[col] = pd.to_datetime(df[col], ...)`),
i.e. they mutate the caller's table.  The embedding makes that visible by
returning a pair: the final value of the argument table, and the
function's return value.

`%Y-%m` string equality on coerced timestamps is modelled as equality of
the (year, month) pair, and `errors='coerce'` as the total functions
`Cell.toDate` / `Cell.toNum` with `Option` defaults.  The only exceptions
reachable inside the allocator's `try` block are the `KeyError`s raised
when a bound column name is missing; they surface as the `status = error`
dictionary, which the embedding returns as data.  UI message strings are
observability only and are not modelled.
-/

namespace ImportFx

structure Date where
  year : Nat
  month : Nat
  day : Nat
deriving DecidableEq, Repr

inductive Cell where
  | null : Cell
  | str (s : String) : Cell
  | date (d : Date) : Cell
  | num (n : Int) : Cell
deriving DecidableEq, Repr

abbrev Row := List Cell

structure Table where
  cols : List String
  rows : List Row
deriving DecidableEq, Repr

/-- Index of the first column with the given name, as pandas column lookup
on a uniquely-labelled frame. -/
def colIdx : List String → String → Option Nat
  | [], _ => none
  | k :: tl, c => if k = c then some 0 else (colIdx tl c).map (· + 1)

/-- Positional cell read; a position outside the row reads as missing. -/
def getCell : Row → Nat → Cell
  | [], _ => Cell.null
  | v :: _, 0 => v
  | _ :: tl, n + 1 => getCell tl n

/-- Positional cell write into an existing position (no-op outside the row). -/
def setCellAt : Row → Nat → Cell → Row
  | [], _, _ => []
  | _ :: tl, 0, v => v :: tl
  | w :: tl, n + 1, v => w :: setCellAt tl n v

/-- Column write that can also append a fresh column cell at position `i`
(how `df['累積残高'] = ...` adds a column at the end of the schema). -/
def putCell (r : Row) (i : Nat) (v : Cell) : Row :=
  if i < r.length then setCellAt r i v
  else r ++ List.replicate (i - r.length) Cell.null ++ [v]

/-- Model of `pd.to_datetime(value, errors='coerce')` on the cell classification. -/
def Cell.toDate : Cell → Option Date
  | Cell.date d => some d
  | _ => none

/-- Model of `pd.to_numeric(value, errors='coerce')` on the cell classification. -/
def Cell.toNum : Cell → Option Int
  | Cell.num n => some n
  | _ => none

/-- Model of `pd.to_numeric(value, errors='coerce').fillna(0)`. -/
def numOf (c : Cell) : Int := (Cell.toNum c).getD 0

/-- A date-coerced cell: dates survive, everything else becomes `NaT`. -/
def coerceDateCell : Cell → Cell
  | Cell.date d => Cell.date d
  | _ => Cell.null

/-- Date coercion of one row at column position `i`. -/
def stepDate (i : Nat) (r : Row) : Row :=
  setCellAt r i (coerceDateCell (getCell r i))

/-- Table-level `df[c] = pd.to_datetime(df[c], errors='coerce')`. -/
def coerceDateCol (t : Table) (c : String) : Table :=
  match colIdx t.cols c with
  | some i => { cols := t.cols, rows := t.rows.map (stepDate i) }
  | none => t

/-! ### Exclusion filter (`filter_unwanted_records`, src/app.py lines 31-53) -/

/-- Char-list substring test (`pandas .str.contains` with a literal
pattern; the literals in the source contain no regex metacharacters). -/
def subSeq (pat : List Char) : List Char → Bool
  | [] => decide (pat = [])
  | a :: tl => pat.isPrefixOf (a :: tl) || subSeq pat tl

def strStarts (s pat : String) : Bool := pat.data.isPrefixOf s.data

def strEnds (s pat : String) : Bool := pat.data.reverse.isPrefixOf s.data.reverse

def strHas (s pat : String) : Bool := subSeq pat.data s.data

/-- The five deletion predicates of lines 38-44, combined with `any`
(line 47).  `.str` accessors on a non-string value yield `NaN`, and
`na=False` maps both that and missing keys to `False`. -/
def matchesAny : Cell → Bool
  | Cell.str s =>
      strStarts s "BAPE" || strEnds s "AUIM" || strHas s "SWAP" ||
        strStarts s "BAPG" || strHas s "OSE"
  | _ => false

/-- The function `filter_unwanted_records` (lines 31-53): keep the rows matched by no
deletion predicate; with the identifier column absent, report and return
the input unchanged (lines 33-35). -/
def filter_unwanted_records (df : Table) (index_col : String) : Table :=
  match colIdx df.cols index_col with
  | some i =>
      { cols := df.cols,
        rows := df.rows.filter (fun r => ! matchesAny (getCell r i)) }
  | none => df

/-! ### Chronological sorter (`sort_dataframe`, src/app.py lines 55-73) -/

/-- Strict chronological order on dates. -/
def dateLt (a b : Date) : Prop :=
  a.year < b.year ∨
    (a.year = b.year ∧
      (a.month < b.month ∨ (a.month = b.month ∧ a.day < b.day)))

instance (a b : Date) : Decidable (dateLt a b) := by
  unfold dateLt; infer_instance

/-- Strict order on one sort-key position: `NaT` (`none`) after every
real date, as `na_position='last'` places it. -/
def keyLt : Option Date → Option Date → Prop
  | some a, some b => dateLt a b
  | some _, none => True
  | none, _ => False

instance (x y : Option Date) : Decidable (keyLt x y) :=
  match x, y with
  | some a, some b => inferInstanceAs (Decidable (dateLt a b))
  | some _, none => inferInstanceAs (Decidable True)
  | none, some _ => inferInstanceAs (Decidable False)
  | none, none => inferInstanceAs (Decidable False)

/-- The composite ascending order of `sort_values([date_col1, date_col2],
na_position='last')`: primary key first, nulls last independently at each
key position. -/
def rowLe (i1 i2 : Nat) (a b : Row) : Prop :=
  keyLt (Cell.toDate (getCell a i1)) (Cell.toDate (getCell b i1)) ∨
    (Cell.toDate (getCell a i1) = Cell.toDate (getCell b i1) ∧
      (keyLt (Cell.toDate (getCell a i2)) (Cell.toDate (getCell b i2)) ∨
        Cell.toDate (getCell a i2) = Cell.toDate (getCell b i2)))

instance (i1 i2 : Nat) (a b : Row) : Decidable (rowLe i1 i2 a b) := by
  unfold rowLe; infer_instance

def rowLeB (i1 i2 : Nat) (a b : Row) : Bool := decide (rowLe i1 i2 a b)

/-- The function `sort_dataframe` (lines 55-73).  First component: the final value of
the caller's frame (the two date columns are coerced in place, lines
65-66); second component: the returned sorted frame.  Sorting on two key
columns is pandas `lexsort`, which is stable.  With either column missing
the function reports and returns the input unchanged (lines 58-61). -/
def sort_dataframe (df : Table) (date_col1 date_col2 : String) : Table × Table :=
  match colIdx df.cols date_col1, colIdx df.cols date_col2 with
  | some i1, some i2 =>
      let df2 := coerceDateCol (coerceDateCol df date_col1) date_col2
      (df2, { cols := df2.cols, rows := df2.rows.mergeSort (rowLeB i1 i2) })
  | some _, none => (df, df)
  | none, _ => (df, df)

/-! ### Allocator (`calculate_payment_allocation`, src/app.py lines 75-148) -/

/-- The reserved cumulative-sum column written at line 106. -/
def cumCol : String := "累積残高"

/-- Position the cumulative column is written to: its existing index, or a
fresh column appended after the schema. -/
def cumIdx (cols : List String) : Nat :=
  match colIdx cols cumCol with
  | some i => i
  | none => cols.length

/-- Schema of the allocator's working frame after line 106. -/
def resCols (cols : List String) : List String :=
  match colIdx cols cumCol with
  | some _ => cols
  | none => cols ++ [cumCol]

/-- Month-scope test of line 90: `strftime('%Y-%m')` of the coerced
from-date equals the due date's zero-padded `year-month` string; `NaT`
yields `NaN`, which equals no string. -/
def inMonth (p : Date) : Cell → Bool
  | Cell.date d => decide (d.year = p.year ∧ d.month = p.month)
  | _ => false

def inMonthRow (fi : Nat) (p : Date) (r : Row) : Bool := inMonth p (getCell r fi)

/-- The month-scoped subset (lines 86-91): rows of the date-coerced frame
whose from-date falls in the due month, in their existing order. -/
def monthRows (df : Table) (from_col : String) (p : Date) : List Row :=
  match colIdx df.cols from_col with
  | some fi => (coerceDateCol df from_col).rows.filter (inMonthRow fi p)
  | none => []

/-- Line 106: walk the rows once, writing the running balance total into
the cumulative column (the addend is read from the balance column before
the write, as the pandas right-hand side is evaluated first). -/
def addCumsum (bi ci : Nat) (acc : Int) : List Row → List Row
  | [] => []
  | r :: tl =>
      putCell r ci (Cell.num (acc + numOf (getCell r bi))) ::
        addCumsum bi ci (acc + numOf (getCell r bi)) tl

/-- Line 103: one row of
`target_records[balance_col] = pd.to_numeric(...).fillna(0)`. -/
def coerceBal (bi : Nat) (r : Row) : Row :=
  setCellAt r bi (Cell.num (numOf (getCell r bi)))

/-- The allocator's working rows after lines 103-106: balance column
coerced to numbers (missing/non-numeric as 0), cumulative column added. -/
def allocProc (df : Table) (balance_col from_col : String) (p : Date) : List Row :=
  match colIdx df.cols balance_col with
  | some bi =>
      addCumsum bi (cumIdx df.cols) 0 ((monthRows df from_col p).map (coerceBal bi))
  | none => []

/-- Position of the first row whose cumulative column has reached the
target (`exceeded_mask.idxmax()` under `exceeded_mask.any()`, lines
109-113); `none` when the mask is all false. -/
def firstIdxGe (amt : Int) (ci : Nat) : List Row → Option Nat
  | [] => none
  | r :: tl =>
      if amt ≤ numOf (getCell r ci) then some 0
      else (firstIdxGe amt ci tl).map (· + 1)

/-- Model of `selected_records[balance_col].sum()` over a row list. -/
def sumBal (bi : Nat) (rows : List Row) : Int :=
  (rows.map (fun r => numOf (getCell r bi))).sum

structure AllocResult where
  status : String
  records : Table
  total_balance : Int
  shortage : Option Int
  split_remainder : Option Int
  payment_amount : Option Int
deriving DecidableEq, Repr

/-- The `status = error` dictionary of lines 143-148: empty frame, zero
total. -/
def errorResult : AllocResult :=
  { status := "error", records := { cols := [], rows := [] },
    total_balance := 0, shortage := none, split_remainder := none,
    payment_amount := none }

/-- The function `calculate_payment_allocation` (lines 75-148).  First component: the
final value of the caller's frame (line 86 coerces the from-date column in
place); second component: the returned result dictionary.  The two
`KeyError` sites reachable inside the `try` block — reading a missing
from-date column at line 86 or a missing balance column at line 103 — fall
to the `except` handler and its `error` dictionary. -/
def calculate_payment_allocation (df : Table) (payment_amount : Int)
    (payment_date : Date) (balance_col from_col : String) : Table × AllocResult :=
  match colIdx df.cols from_col with
  | none => (df, errorResult)
  | some _ =>
      let df2 := coerceDateCol df from_col
      let target := monthRows df from_col payment_date
      if target = [] then
        (df2, { status := "no_records", records := { cols := [], rows := [] },
                total_balance := 0, shortage := some payment_amount,
                split_remainder := none, payment_amount := none })
      else
        match colIdx df.cols balance_col with
        | none => (df2, errorResult)
        | some bi =>
            let proc := allocProc df balance_col from_col payment_date
            match firstIdxGe payment_amount (cumIdx df.cols) proc with
            | some k =>
                let sel := proc.take (k + 1)
                let total := sumBal bi sel
                (df2, { status := "sufficient",
                        records := { cols := resCols df.cols, rows := sel },
                        total_balance := total, shortage := none,
                        split_remainder := some (total - payment_amount),
                        payment_amount := some payment_amount })
            | none =>
                let total := sumBal bi proc
                (df2, { status := "insufficient",
                        records := { cols := resCols df.cols, rows := proc },
                        total_balance := total,
                        shortage := some (payment_amount - total),
                        split_remainder := none,
                        payment_amount := some payment_amount })

/-! ### Specification-level vocabulary used by the theorems -/

/-- The spec's exclusion condition, spelled structurally: the cell is a
string that starts with `BAPE`, ends with `AUIM`, contains `SWAP`, starts
with `BAPG`, or contains `OSE` (case-sensitive; a null or non-string key
satisfies nothing). -/
def exclSpec (c : Cell) : Prop :=
  ∃ s, c = Cell.str s ∧
    ((∃ t, s.data = "BAPE".data ++ t) ∨
     (∃ t, s.data = t ++ "AUIM".data) ∨
     (∃ u v, s.data = u ++ "SWAP".data ++ v) ∨
     (∃ t, s.data = "BAPG".data ++ t) ∨
     (∃ u v, s.data = u ++ "OSE".data ++ v))

/-- The composite sort key of a row: (agreement date, from-date) as parsed
dates, `none` for an unparseable or missing value. -/
def keyPair (i1 i2 : Nat) (r : Row) : Option Date × Option Date :=
  (Cell.toDate (getCell r i1), Cell.toDate (getCell r i2))

/-! ### Concrete tables for witnesses and counterexamples -/

/-- The ledger of the spec's concrete scenarios 2-4: three records with
from-dates 2024-05-03, 2024-05-10, 2024-06-01 and balances 300000, 800000,
500000. -/
def ledgerT : Table :=
  { cols := ["IndexNo", "締結日", "From", "紐づけ後残高"],
    rows := [
      [Cell.str "AAAA1", Cell.date ⟨2024, 4, 1⟩, Cell.date ⟨2024, 5, 3⟩, Cell.num 300000],
      [Cell.str "AAAA2", Cell.date ⟨2024, 4, 2⟩, Cell.date ⟨2024, 5, 10⟩, Cell.num 800000],
      [Cell.str "AAAA3", Cell.date ⟨2024, 4, 3⟩, Cell.date ⟨2024, 6, 1⟩, Cell.num 500000]] }

/-- A table whose identifier column holds `BAPE1001` (spec scenario 1)
next to a retained record and a null key. -/
def filterT : Table :=
  { cols := ["IndexNo", "x"],
    rows := [[Cell.str "BAPE1001", Cell.num 1], [Cell.str "ZZZ", Cell.num 2],
             [Cell.null, Cell.num 3]] }

/-- A table whose agreement-date cell is an unparseable string: sorting
coerces it to null in place. -/
def garbleT : Table :=
  { cols := ["締結日", "From"],
    rows := [[Cell.str "garbage", Cell.date ⟨2024, 1, 1⟩]] }

/-- A small sortable table exercising null-last ordering and ties. -/
def sortT : Table :=
  { cols := ["締結日", "From"],
    rows := [
      [Cell.str "garbage", Cell.date ⟨2024, 1, 1⟩],
      [Cell.date ⟨2024, 1, 2⟩, Cell.null],
      [Cell.date ⟨2024, 1, 2⟩, Cell.date ⟨2023, 1, 1⟩],
      [Cell.date ⟨2024, 1, 1⟩, Cell.null]] }

/-- One May record of balance 5: with a payment amount of 0 the allocator
reports `sufficient` on the first record alone. -/
def zeroAmtT : Table :=
  { cols := ["From", "Bal"], rows := [[Cell.date ⟨2024, 5, 3⟩, Cell.num 5]] }

/-- A table that already owns a `累積残高` column, bound as the balance
column: the allocator overwrites it with its own cumulative sums before
summing. -/
def aliasT : Table :=
  { cols := ["From", "累積残高"],
    rows := [[Cell.date ⟨2024, 5, 1⟩, Cell.num 3],
             [Cell.date ⟨2024, 5, 2⟩, Cell.num 0]] }

/-- A record whose from-date cell is an unparseable string, next to a
dated May record. -/
def nullFromT : Table :=
  { cols := ["From", "Bal"],
    rows := [[Cell.str "notadate", Cell.num 100], [Cell.date ⟨2024, 5, 2⟩, Cell.num 7]] }

def mayDue : Date := ⟨2024, 5, 15⟩

/-! ### Basic row and schema lemmas -/

theorem length_setCellAt (r : Row) (i : Nat) (v : Cell) :
    (setCellAt r i v).length = r.length := by
  induction r generalizing i with
  | nil => rfl
  | cons w tl ih =>
      cases i with
      | zero => rfl
      | succ n => simp [setCellAt, ih]

theorem setCellAt_of_le (r : Row) (i : Nat) (v : Cell) (h : r.length ≤ i) :
    setCellAt r i v = r := by
  induction r generalizing i with
  | nil => rfl
  | cons w tl ih =>
      cases i with
      | zero => exact absurd h (by simp)
      | succ n => simp only [setCellAt, List.cons.injEq, true_and]; exact ih n (by simpa using h)

theorem getCell_of_le (r : Row) (i : Nat) (h : r.length ≤ i) : getCell r i = Cell.null := by
  induction r generalizing i with
  | nil => rfl
  | cons w tl ih =>
      cases i with
      | zero => exact absurd h (by simp)
      | succ n => exact ih n (by simpa using h)

theorem getCell_setCellAt_self (r : Row) (i : Nat) (v : Cell) (h : i < r.length) :
    getCell (setCellAt r i v) i = v := by
  induction r generalizing i with
  | nil => exact absurd h (by simp)
  | cons w tl ih =>
      cases i with
      | zero => rfl
      | succ n => exact ih n (by simpa using h)

theorem getCell_setCellAt_ne (r : Row) {i j : Nat} (v : Cell) (h : j ≠ i) :
    getCell (setCellAt r i v) j = getCell r j := by
  induction r generalizing i j with
  | nil => rfl
  | cons w tl ih =>
      cases i with
      | zero =>
          cases j with
          | zero => exact absurd rfl h
          | succ m => rfl
      | succ n =>
          cases j with
          | zero => rfl
          | succ m => exact ih (fun hc => h (by simp [hc]))

theorem setCellAt_setCellAt_same (r : Row) (i : Nat) (v w : Cell) :
    setCellAt (setCellAt r i v) i w = setCellAt r i w := by
  induction r generalizing i with
  | nil => rfl
  | cons a tl ih =>
      cases i with
      | zero => rfl
      | succ n => simp [setCellAt, ih]

theorem setCellAt_comm (r : Row) {i j : Nat} (v w : Cell) (h : i ≠ j) :
    setCellAt (setCellAt r i v) j w = setCellAt (setCellAt r j w) i v := by
  induction r generalizing i j with
  | nil => rfl
  | cons a tl ih =>
      cases i with
      | zero =>
          cases j with
          | zero => exact absurd rfl h
          | succ m => rfl
      | succ n =>
          cases j with
          | zero => rfl
          | succ m => simp only [setCellAt, List.cons.injEq, true_and]; exact ih (fun hc => h (by simp [hc]))

theorem getCell_append_left (r s : Row) {i : Nat} (h : i < r.length) :
    getCell (r ++ s) i = getCell r i := by
  induction r generalizing i with
  | nil => exact absurd h (by simp)
  | cons w tl ih =>
      cases i with
      | zero => rfl
      | succ n => exact ih (by simpa using h)

theorem getCell_append_right (r s : Row) (k : Nat) :
    getCell (r ++ s) (r.length + k) = getCell s k := by
  induction r with
  | nil => simp [getCell]
  | cons w tl ih => simpa [Nat.succ_add, getCell] using ih

theorem getCell_replicate_append_self (n : Nat) (x v : Cell) :
    getCell (List.replicate n x ++ [v]) n = v := by
  induction n with
  | zero => rfl
  | succ m ih => simpa [List.replicate] using ih

theorem getCell_replicate_append_ne (n k : Nat) (v : Cell) (h : k ≠ n) :
    getCell (List.replicate n Cell.null ++ [v]) k = Cell.null := by
  induction n generalizing k with
  | zero =>
      cases k with
      | zero => exact absurd rfl h
      | succ m => cases m <;> rfl
  | succ m ih =>
      cases k with
      | zero => rfl
      | succ j => simpa [List.replicate] using ih j (fun hc => h (by simp [hc]))

theorem getCell_putCell_self (r : Row) (i : Nat) (v : Cell) :
    getCell (putCell r i v) i = v := by
  unfold putCell
  by_cases h : i < r.length
  · rw [if_pos h]
    exact getCell_setCellAt_self r i v h
  · rw [if_neg h, List.append_assoc]
    have h2 := getCell_append_right r (List.replicate (i - r.length) Cell.null ++ [v]) (i - r.length)
    rw [show r.length + (i - r.length) = i by omega] at h2
    rw [h2]
    exact getCell_replicate_append_self _ _ _

theorem getCell_putCell_ne (r : Row) {i j : Nat} (v : Cell) (h : j ≠ i) :
    getCell (putCell r i v) j = getCell r j := by
  unfold putCell
  by_cases hi : i < r.length
  · rw [if_pos hi]
    exact getCell_setCellAt_ne r v h
  · rw [if_neg hi, List.append_assoc]
    by_cases hj : j < r.length
    · exact getCell_append_left r _ hj
    · have h2 := getCell_append_right r (List.replicate (i - r.length) Cell.null ++ [v]) (j - r.length)
      rw [show r.length + (j - r.length) = j by omega] at h2
      rw [h2, getCell_of_le r j (by omega)]
      exact getCell_replicate_append_ne _ _ _ (by omega)

/-! ### Column-index lemmas -/

theorem colIdx_get? (cols : List String) (c : String) :
    ∀ {i : Nat}, colIdx cols c = some i → cols.get? i = some c := by
  induction cols with
  | nil => intro i h; exact absurd h (by simp [colIdx])
  | cons k tl ih =>
      intro i h
      by_cases hk : k = c
      · simp [colIdx, hk] at h
        subst h hk
        rfl
      · simp only [colIdx, hk, if_neg, not_false_iff] at h
        cases htl : colIdx tl c with
        | none => rw [htl] at h; exact absurd h (by simp)
        | some n =>
            rw [htl] at h
            simp at h
            subst h
            exact ih htl

theorem colIdx_lt_length (cols : List String) (c : String) {i : Nat}
    (h : colIdx cols c = some i) : i < cols.length := by
  have := colIdx_get? cols c h
  exact List.get?_eq_some.mp this |>.1

theorem colIdx_eq_none_iff (cols : List String) (c : String) :
    colIdx cols c = none ↔ c ∉ cols := by
  induction cols with
  | nil => simp [colIdx]
  | cons k tl ih =>
      by_cases hk : k = c
      · simp [colIdx, hk]
      · simp [colIdx, hk, ih, Option.map_eq_none', Ne.symm hk]

theorem colIdx_mem (cols : List String) (c : String) (h : c ∈ cols) :
    ∃ i, colIdx cols c = some i := by
  cases hc : colIdx cols c with
  | none => exact absurd ((colIdx_eq_none_iff cols c).mp hc) (by simpa using h)
  | some i => exact ⟨i, rfl⟩

theorem colIdx_ne_of_ne (cols : List String) {b c : String} {bi ci : Nat}
    (hb : colIdx cols b = some bi) (hc : colIdx cols c = some ci) (h : b ≠ c) :
    bi ≠ ci := by
  intro he
  subst he
  have h1 := colIdx_get? cols b hb
  have h2 := colIdx_get? cols c hc
  rw [h1] at h2
  exact h (by injection h2)

/-! ### Coercion lemmas -/

theorem coerceDateCell_idem (c : Cell) :
    coerceDateCell (coerceDateCell c) = coerceDateCell c := by
  cases c <;> rfl

theorem toDate_coerceDateCell (c : Cell) :
    Cell.toDate (coerceDateCell c) = Cell.toDate c := by
  cases c <;> rfl

theorem toDate_getCell_stepDate (i j : Nat) (r : Row) :
    Cell.toDate (getCell (stepDate i r) j) = Cell.toDate (getCell r j) := by
  by_cases hj : j = i
  · subst hj
    by_cases hl : j < r.length
    · rw [stepDate, getCell_setCellAt_self _ _ _ hl, toDate_coerceDateCell]
    · rw [stepDate, setCellAt_of_le _ _ _ (by omega)]
  · rw [stepDate, getCell_setCellAt_ne _ _ hj]

theorem stepDate_idem (i : Nat) (r : Row) : stepDate i (stepDate i r) = stepDate i r := by
  by_cases hl : i < r.length
  · show setCellAt (stepDate i r) i (coerceDateCell (getCell (stepDate i r) i)) = stepDate i r
    rw [stepDate, getCell_setCellAt_self _ _ _ hl, coerceDateCell_idem,
      setCellAt_setCellAt_same]
  · have hr : stepDate i r = r := setCellAt_of_le _ _ _ (by omega)
    rw [hr]
    exact hr

theorem stepDate_comm {i j : Nat} (r : Row) (h : i ≠ j) :
    stepDate i (stepDate j r) = stepDate j (stepDate i r) := by
  show setCellAt (stepDate j r) i (coerceDateCell (getCell (stepDate j r) i)) =
    setCellAt (stepDate i r) j (coerceDateCell (getCell (stepDate i r) j))
  rw [stepDate, getCell_setCellAt_ne _ _ h, stepDate, getCell_setCellAt_ne _ _ (Ne.symm h)]
  exact setCellAt_comm r _ _ (Ne.symm h)

/-! ### Order lemmas for the composite sort key -/

theorem dateLt_trans {a b c : Date} (h1 : dateLt a b) (h2 : dateLt b c) : dateLt a c := by
  unfold dateLt at *
  omega

theorem dateLt_asymm {a b : Date} (h1 : dateLt a b) (h2 : dateLt b a) : False := by
  unfold dateLt at *
  omega

theorem dateLt_trichotomy (a b : Date) : dateLt a b ∨ a = b ∨ dateLt b a := by
  obtain ⟨y1, m1, d1⟩ := a
  obtain ⟨y2, m2, d2⟩ := b
  simp only [dateLt, Date.mk.injEq]
  omega

theorem keyLt_trans {x y z : Option Date} (h1 : keyLt x y) (h2 : keyLt y z) : keyLt x z := by
  cases x <;> cases y <;> cases z <;> simp_all [keyLt]
  exact dateLt_trans h1 h2

theorem keyLt_trichotomy (x y : Option Date) : keyLt x y ∨ x = y ∨ keyLt y x := by
  cases x with
  | none =>
      cases y with
      | none => exact Or.inr (Or.inl rfl)
      | some b => exact Or.inr (Or.inr trivial)
  | some a =>
      cases y with
      | none => exact Or.inl trivial
      | some b =>
          rcases dateLt_trichotomy a b with h | h | h
          · exact Or.inl h
          · exact Or.inr (Or.inl (by rw [h]))
          · exact Or.inr (Or.inr h)

theorem rowLe_trans (i1 i2 : Nat) {a b c : Row} (h1 : rowLe i1 i2 a b)
    (h2 : rowLe i1 i2 b c) : rowLe i1 i2 a c := by
  rcases h1 with hp1 | ⟨he1, hs1⟩
  · rcases h2 with hp2 | ⟨he2, hs2⟩
    · exact Or.inl (keyLt_trans hp1 hp2)
    · exact Or.inl (he2 ▸ hp1)
  · rcases h2 with hp2 | ⟨he2, hs2⟩
    · exact Or.inl (he1 ▸ hp2)
    · refine Or.inr ⟨he1.trans he2, ?_⟩
      rcases hs1 with hs1 | hs1
      · rcases hs2 with hs2 | hs2
        · exact Or.inl (keyLt_trans hs1 hs2)
        · exact Or.inl (hs2 ▸ hs1)
      · rcases hs2 with hs2 | hs2
        · exact Or.inl (hs1 ▸ hs2)
        · exact Or.inr (hs1.trans hs2)

theorem rowLe_total (i1 i2 : Nat) (a b : Row) : rowLe i1 i2 a b ∨ rowLe i1 i2 b a := by
  rcases keyLt_trichotomy (Cell.toDate (getCell a i1)) (Cell.toDate (getCell b i1)) with h | h | h
  · exact Or.inl (Or.inl h)
  · rcases keyLt_trichotomy (Cell.toDate (getCell a i2)) (Cell.toDate (getCell b i2)) with
      h2 | h2 | h2
    · exact Or.inl (Or.inr ⟨h, Or.inl h2⟩)
    · exact Or.inl (Or.inr ⟨h, Or.inr h2⟩)
    · exact Or.inr (Or.inr ⟨h.symm, Or.inl h2⟩)
  · exact Or.inr (Or.inl h)

theorem rowLeB_trans (i1 i2 : Nat) (a b c : Row) (h1 : rowLeB i1 i2 a b = true)
    (h2 : rowLeB i1 i2 b c = true) : rowLeB i1 i2 a c = true := by
  simp only [rowLeB, decide_eq_true_eq] at *
  exact rowLe_trans i1 i2 h1 h2

theorem rowLeB_total (i1 i2 : Nat) (a b : Row) :
    (rowLeB i1 i2 a b || rowLeB i1 i2 b a) = true := by
  simp only [rowLeB, Bool.or_eq_true, decide_eq_true_eq]
  exact rowLe_total i1 i2 a b

/-! ### String predicate characterizations -/

theorem isPrefixOf_iff {p l : List Char} : p.isPrefixOf l = true ↔ ∃ t, l = p ++ t := by
  induction p generalizing l with
  | nil => simp [List.isPrefixOf]
  | cons a ptl ih =>
      cases l with
      | nil => simp [List.isPrefixOf]
      | cons b ltl =>
          simp only [List.isPrefixOf, Bool.and_eq_true, beq_iff_eq, ih, List.cons_append,
            List.cons.injEq]
          constructor
          · rintro ⟨hab, t, ht⟩
            exact ⟨t, hab.symm, ht⟩
          · rintro ⟨t, hba, ht⟩
            exact ⟨hba.symm, t, ht⟩

theorem subSeq_iff {pat l : List Char} : subSeq pat l = true ↔ ∃ u v, l = u ++ pat ++ v := by
  induction l with
  | nil =>
      simp only [subSeq, decide_eq_true_eq]
      constructor
      · rintro rfl
        exact ⟨[], [], rfl⟩
      · rintro ⟨u, v, h⟩
        rcases List.append_eq_nil.mp (List.append_eq_nil.mp h.symm).1 with ⟨-, h2⟩
        exact h2
  | cons a tl ih =>
      simp only [subSeq, Bool.or_eq_true, isPrefixOf_iff, ih]
      constructor
      · rintro (⟨t, ht⟩ | ⟨u, v, h⟩)
        · exact ⟨[], t, by simpa using ht⟩
        · exact ⟨a :: u, v, by simp [h]⟩
      · rintro ⟨u, v, h⟩
        cases u with
        | nil => exact Or.inl ⟨v, by simpa using h⟩
        | cons b u' =>
            simp only [List.cons_append, List.cons.injEq] at h
            exact Or.inr ⟨u', v, h.2⟩

theorem strStarts_iff (s pat : String) : strStarts s pat = true ↔ ∃ t, s.data = pat.data ++ t :=
  isPrefixOf_iff

theorem strEnds_iff (s pat : String) : strEnds s pat = true ↔ ∃ t, s.data = t ++ pat.data := by
  rw [strEnds, isPrefixOf_iff]
  constructor
  · rintro ⟨t, ht⟩
    refine ⟨t.reverse, ?_⟩
    have := congrArg List.reverse ht
    simpa using this
  · rintro ⟨t, ht⟩
    exact ⟨t.reverse, by simp [ht]⟩

theorem strHas_iff (s pat : String) : strHas s pat = true ↔ ∃ u v, s.data = u ++ pat.data ++ v :=
  subSeq_iff

theorem matchesAny_iff (c : Cell) : matchesAny c = true ↔ exclSpec c := by
  cases c with
  | str s =>
      simp only [matchesAny, Bool.or_eq_true, strStarts_iff, strEnds_iff, strHas_iff,
        exclSpec, Cell.str.injEq, exists_eq_left', or_assoc]
  | null => simp [matchesAny, exclSpec]
  | date d => simp [matchesAny, exclSpec]
  | num n => simp [matchesAny, exclSpec]

/-! ### Allocator lemmas -/

theorem sumBal_nil (bi : Nat) : sumBal bi [] = 0 := rfl

theorem sumBal_cons (bi : Nat) (r : Row) (tl : List Row) :
    sumBal bi (r :: tl) = numOf (getCell r bi) + sumBal bi tl := by
  simp [sumBal]

theorem length_addCumsum (bi ci : Nat) :
    ∀ (L : List Row) (acc : Int), (addCumsum bi ci acc L).length = L.length := by
  intro L
  induction L with
  | nil => intro acc; rfl
  | cons r tl ih => intro acc; simp [addCumsum, ih]

theorem take_addCumsum (bi ci : Nat) :
    ∀ (L : List Row) (acc : Int) (n : Nat),
      (addCumsum bi ci acc L).take n = addCumsum bi ci acc (L.take n) := by
  intro L
  induction L with
  | nil => intro acc n; simp [addCumsum]
  | cons r tl ih =>
      intro acc n
      cases n with
      | zero => simp [addCumsum]
      | succ m => simp [addCumsum, ih]

theorem addCumsum_get? (bi ci : Nat) :
    ∀ (L : List Row) (acc : Int) (i : Nat),
      (addCumsum bi ci acc L).get? i =
        (L.get? i).map (fun r => putCell r ci (Cell.num (acc + sumBal bi (L.take (i + 1))))) := by
  intro L
  induction L with
  | nil => intro acc i; simp [addCumsum]
  | cons r tl ih =>
      intro acc i
      cases i with
      | zero => simp [addCumsum, sumBal_cons, sumBal_nil]
      | succ n =>
          simp only [addCumsum, List.get?_cons_succ, List.take_succ_cons, sumBal_cons, ih]
          have ha : ∀ s : Int, acc + (numOf (getCell r bi) + s) =
              acc + numOf (getCell r bi) + s := by intro s; ring
          rw [ha]

theorem mem_addCumsum (bi ci : Nat) :
    ∀ {L : List Row} {acc : Int} {r' : Row}, r' ∈ addCumsum bi ci acc L →
      ∃ r ∈ L, ∃ v : Cell, r' = putCell r ci v := by
  intro L
  induction L with
  | nil => intro acc r' h; exact absurd h (by simp [addCumsum])
  | cons r tl ih =>
      intro acc r' h
      rcases (by simpa [addCumsum] using h :
          r' = putCell r ci (Cell.num (acc + numOf (getCell r bi))) ∨
            r' ∈ addCumsum bi ci (acc + numOf (getCell r bi)) tl) with h1 | h1
      · exact ⟨r, by simp, _, h1⟩
      · obtain ⟨r0, hr0, v, hv⟩ := ih h1
        exact ⟨r0, by simp [hr0], v, hv⟩

theorem firstIdxGe_some (amt : Int) (ci : Nat) :
    ∀ {L : List Row} {k : Nat}, firstIdxGe amt ci L = some k →
      (∃ r, L.get? k = some r ∧ amt ≤ numOf (getCell r ci)) ∧
        (∀ j r', j < k → L.get? j = some r' → numOf (getCell r' ci) < amt) := by
  intro L
  induction L with
  | nil => intro k h; exact absurd h (by simp [firstIdxGe])
  | cons r tl ih =>
      intro k h
      by_cases hc : amt ≤ numOf (getCell r ci)
      · rw [firstIdxGe, if_pos hc] at h
        injection h with h
        subst h
        exact ⟨⟨r, rfl, hc⟩, fun j r' hj _ => absurd hj (by omega)⟩
      · rw [firstIdxGe, if_neg hc] at h
        cases htl : firstIdxGe amt ci tl with
        | none => rw [htl] at h; exact absurd h (by simp)
        | some n =>
            rw [htl] at h
            simp only [Option.map_some'] at h
            injection h with h
            subst h
            obtain ⟨⟨r0, hr0, hge⟩, hlt⟩ := ih htl
            refine ⟨⟨r0, by simpa using hr0, hge⟩, ?_⟩
            intro j r' hj hr'
            cases j with
            | zero =>
                have : r = r' := by simpa using hr'
                subst this
                omega
            | succ m => exact hlt m r' (by omega) (by simpa using hr')

theorem firstIdxGe_none (amt : Int) (ci : Nat) :
    ∀ {L : List Row}, firstIdxGe amt ci L = none →
      ∀ {j : Nat} {r' : Row}, L.get? j = some r' → numOf (getCell r' ci) < amt := by
  intro L
  induction L with
  | nil => intro _ j r' h; exact absurd h (by simp)
  | cons r tl ih =>
      intro h j r' hj
      by_cases hc : amt ≤ numOf (getCell r ci)
      · rw [firstIdxGe, if_pos hc] at h; exact absurd h (by simp)
      · rw [firstIdxGe, if_neg hc] at h
        cases j with
        | zero =>
            have : r = r' := by simpa using hj
            subst this
            omega
        | succ m =>
            cases htl : firstIdxGe amt ci tl with
            | none => exact ih htl (by simpa using hj)
            | some n => rw [htl] at h; exact absurd h (by simp)

theorem numOf_setSelf (r : Row) (bi : Nat) :
    numOf (getCell (setCellAt r bi (Cell.num (numOf (getCell r bi)))) bi) =
      numOf (getCell r bi) := by
  by_cases h : bi < r.length
  · rw [getCell_setCellAt_self _ _ _ h]
    rfl
  · rw [setCellAt_of_le _ _ _ (by omega)]

theorem sumBal_addCumsum {bi ci : Nat} (hne : bi ≠ ci) :
    ∀ (L : List Row) (acc : Int), sumBal bi (addCumsum bi ci acc L) = sumBal bi L := by
  intro L
  induction L with
  | nil => intro acc; rfl
  | cons r tl ih =>
      intro acc
      rw [addCumsum, sumBal_cons, sumBal_cons, ih, getCell_putCell_ne _ _ hne]

theorem sumBal_coerceMap (bi : Nat) (L : List Row) :
    sumBal bi (L.map (coerceBal bi)) = sumBal bi L := by
  induction L with
  | nil => rfl
  | cons r tl ih => simp only [List.map_cons, sumBal_cons, ih, coerceBal, numOf_setSelf]

theorem bi_ne_cumIdx {cols : List String} {bcol : String} {bi : Nat}
    (hb : colIdx cols bcol = some bi) (hne : bcol ≠ cumCol) : bi ≠ cumIdx cols := by
  cases hc : colIdx cols cumCol with
  | some c =>
      unfold cumIdx
      rw [hc]
      exact colIdx_ne_of_ne cols hb hc hne
  | none =>
      have h2 : cumIdx cols = cols.length := by unfold cumIdx; rw [hc]
      rw [h2]
      have := colIdx_lt_length cols bcol hb
      omega

theorem calc_cases (df : Table) (amt : Int) (p : Date) (bcol fcol : String) :
    (colIdx df.cols fcol = none ∧
      (calculate_payment_allocation df amt p bcol fcol).2 = errorResult ∧
      (calculate_payment_allocation df amt p bcol fcol).1 = df) ∨
    (∃ fi, colIdx df.cols fcol = some fi ∧
      (calculate_payment_allocation df amt p bcol fcol).1 = coerceDateCol df fcol ∧
      ((monthRows df fcol p = [] ∧
        (calculate_payment_allocation df amt p bcol fcol).2.status = "no_records" ∧
        (calculate_payment_allocation df amt p bcol fcol).2.records.rows = [] ∧
        (calculate_payment_allocation df amt p bcol fcol).2.total_balance = 0 ∧
        (calculate_payment_allocation df amt p bcol fcol).2.shortage = some amt ∧
        (calculate_payment_allocation df amt p bcol fcol).2.split_remainder = none) ∨
       (monthRows df fcol p ≠ [] ∧ colIdx df.cols bcol = none ∧
        (calculate_payment_allocation df amt p bcol fcol).2 = errorResult) ∨
       (∃ bi k, monthRows df fcol p ≠ [] ∧ colIdx df.cols bcol = some bi ∧
        firstIdxGe amt (cumIdx df.cols) (allocProc df bcol fcol p) = some k ∧
        (calculate_payment_allocation df amt p bcol fcol).2.status = "sufficient" ∧
        (calculate_payment_allocation df amt p bcol fcol).2.records.rows =
          (allocProc df bcol fcol p).take (k + 1) ∧
        (calculate_payment_allocation df amt p bcol fcol).2.total_balance =
          sumBal bi ((allocProc df bcol fcol p).take (k + 1)) ∧
        (calculate_payment_allocation df amt p bcol fcol).2.split_remainder =
          some (sumBal bi ((allocProc df bcol fcol p).take (k + 1)) - amt) ∧
        (calculate_payment_allocation df amt p bcol fcol).2.shortage = none) ∨
       (∃ bi, monthRows df fcol p ≠ [] ∧ colIdx df.cols bcol = some bi ∧
        firstIdxGe amt (cumIdx df.cols) (allocProc df bcol fcol p) = none ∧
        (calculate_payment_allocation df amt p bcol fcol).2.status = "insufficient" ∧
        (calculate_payment_allocation df amt p bcol fcol).2.records.rows =
          allocProc df bcol fcol p ∧
        (calculate_payment_allocation df amt p bcol fcol).2.total_balance =
          sumBal bi (allocProc df bcol fcol p) ∧
        (calculate_payment_allocation df amt p bcol fcol).2.shortage =
          some (amt - sumBal bi (allocProc df bcol fcol p)) ∧
        (calculate_payment_allocation df amt p bcol fcol).2.split_remainder = none))) := by
  cases hf : colIdx df.cols fcol with
  | none =>
      have he : calculate_payment_allocation df amt p bcol fcol = (df, errorResult) := by
        unfold calculate_payment_allocation
        rw [hf]
      exact Or.inl ⟨rfl, (congrArg Prod.snd he).trans rfl, (congrArg Prod.fst he).trans rfl⟩
  | some fi =>
      by_cases hm : monthRows df fcol p = []
      · have he : calculate_payment_allocation df amt p bcol fcol =
            (coerceDateCol df fcol,
             { status := "no_records", records := { cols := [], rows := [] },
               total_balance := 0, shortage := some amt, split_remainder := none,
               payment_amount := none }) := by
          unfold calculate_payment_allocation
          simp only [hf]
          rw [if_pos hm]
        exact Or.inr ⟨fi, rfl, (congrArg Prod.fst he).trans rfl,
          Or.inl ⟨hm, (congrArg (fun x => x.2.status) he).trans rfl,
            (congrArg (fun x => x.2.records.rows) he).trans rfl,
            (congrArg (fun x => x.2.total_balance) he).trans rfl,
            (congrArg (fun x => x.2.shortage) he).trans rfl,
            (congrArg (fun x => x.2.split_remainder) he).trans rfl⟩⟩
      · cases hb : colIdx df.cols bcol with
        | none =>
            have he : calculate_payment_allocation df amt p bcol fcol =
                (coerceDateCol df fcol, errorResult) := by
              unfold calculate_payment_allocation
              simp only [hf, hb]
              rw [if_neg hm]
            exact Or.inr ⟨fi, rfl, (congrArg Prod.fst he).trans rfl,
              Or.inr (Or.inl ⟨hm, rfl, (congrArg Prod.snd he).trans rfl⟩)⟩
        | some bi =>
            cases hk : firstIdxGe amt (cumIdx df.cols) (allocProc df bcol fcol p) with
            | some k =>
                have he : calculate_payment_allocation df amt p bcol fcol =
                    (coerceDateCol df fcol,
                     { status := "sufficient",
                       records := { cols := resCols df.cols,
                                    rows := (allocProc df bcol fcol p).take (k + 1) },
                       total_balance := sumBal bi ((allocProc df bcol fcol p).take (k + 1)),
                       shortage := none,
                       split_remainder :=
                         some (sumBal bi ((allocProc df bcol fcol p).take (k + 1)) - amt),
                       payment_amount := some amt }) := by
                  unfold calculate_payment_allocation
                  simp only [hf, hb, hk]
                  rw [if_neg hm]
                exact Or.inr ⟨fi, rfl, (congrArg Prod.fst he).trans rfl,
                  Or.inr (Or.inr (Or.inl ⟨bi, k, hm, rfl, rfl,
                    (congrArg (fun x => x.2.status) he).trans rfl,
                    (congrArg (fun x => x.2.records.rows) he).trans rfl,
                    (congrArg (fun x => x.2.total_balance) he).trans rfl,
                    (congrArg (fun x => x.2.split_remainder) he).trans rfl,
                    (congrArg (fun x => x.2.shortage) he).trans rfl⟩))⟩
            | none =>
                have he : calculate_payment_allocation df amt p bcol fcol =
                    (coerceDateCol df fcol,
                     { status := "insufficient",
                       records := { cols := resCols df.cols,
                                    rows := allocProc df bcol fcol p },
                       total_balance := sumBal bi (allocProc df bcol fcol p),
                       shortage := some (amt - sumBal bi (allocProc df bcol fcol p)),
                       split_remainder := none,
                       payment_amount := some amt }) := by
                  unfold calculate_payment_allocation
                  simp only [hf, hb, hk]
                  rw [if_neg hm]
                exact Or.inr ⟨fi, rfl, (congrArg Prod.fst he).trans rfl,
                  Or.inr (Or.inr (Or.inr ⟨bi, hm, rfl, rfl,
                    (congrArg (fun x => x.2.status) he).trans rfl,
                    (congrArg (fun x => x.2.records.rows) he).trans rfl,
                    (congrArg (fun x => x.2.total_balance) he).trans rfl,
                    (congrArg (fun x => x.2.shortage) he).trans rfl,
                    (congrArg (fun x => x.2.split_remainder) he).trans rfl⟩))⟩

/-! ### Claim theorems -/

/-- C4: with the identifier column present, the exclusion filter retains a
record iff none of the five predicates — starts with `BAPE`, ends with
`AUIM`, contains `SWAP`, starts with `BAPG`, contains `OSE`
(case-sensitive) — holds of its identifier cell; a null (or non-string)
identifier satisfies no predicate and such records are retained. -/
theorem filter_retains_iff (df : Table) (index_col : String)
    (h : index_col ∈ df.cols) :
    ∃ i, colIdx df.cols index_col = some i ∧
      (∀ r : Row, r ∈ (filter_unwanted_records df index_col).rows ↔
        r ∈ df.rows ∧ ¬ exclSpec (getCell r i)) ∧
      ¬ exclSpec Cell.null := by
  obtain ⟨i, hi⟩ := colIdx_mem df.cols index_col h
  have hnull : ¬ exclSpec Cell.null := by
    rintro ⟨s, hs, -⟩
    exact Cell.noConfusion hs
  refine ⟨i, hi, ?_, hnull⟩
  intro r
  unfold filter_unwanted_records
  rw [hi]
  constructor
  · intro hm
    have hm2 := List.mem_filter.mp hm
    refine ⟨hm2.1, fun hex => ?_⟩
    have hb := hm2.2
    rw [Bool.not_eq_true'] at hb
    rw [(matchesAny_iff _).mpr hex] at hb
    exact Bool.noConfusion hb
  · rintro ⟨hr, hnex⟩
    refine List.mem_filter.mpr ⟨hr, ?_⟩
    rw [Bool.not_eq_true']
    cases hmb : matchesAny (getCell r i) with
    | true => exact absurd ((matchesAny_iff _).mp hmb) hnex
    | false => rfl

/-- C4 witness: the scenario-1 table, with identifier column `IndexNo`;
in particular its `BAPE1001` record is characterized by the predicate. -/
theorem filter_retains_iff_witness :
    ∃ i, colIdx filterT.cols "IndexNo" = some i ∧
      (∀ r : Row, r ∈ (filter_unwanted_records filterT "IndexNo").rows ↔
        r ∈ filterT.rows ∧ ¬ exclSpec (getCell r i)) ∧
      ¬ exclSpec Cell.null :=
  filter_retains_iff filterT "IndexNo" (by decide)

/-- C6: with the identifier column absent the filter returns its input
unchanged, and with either date column absent the sorter returns its input
unchanged (and leaves it unmutated); neither aborts. -/
theorem missing_column_noop (df : Table) (index_col c1 c2 : String) :
    (index_col ∉ df.cols → filter_unwanted_records df index_col = df) ∧
    (c1 ∉ df.cols ∨ c2 ∉ df.cols → sort_dataframe df c1 c2 = (df, df)) := by
  constructor
  · intro h
    unfold filter_unwanted_records
    rw [(colIdx_eq_none_iff _ _).mpr h]
  · intro h
    rcases h with h | h
    · have hn := (colIdx_eq_none_iff df.cols c1).mpr h
      unfold sort_dataframe
      rw [hn]
    · have hn := (colIdx_eq_none_iff df.cols c2).mpr h
      unfold sort_dataframe
      rw [hn]
      cases colIdx df.cols c1 <;> rfl

/-- C6 witness: a table with columns `IndexNo, x` passed through both
degradation paths. -/
theorem missing_column_noop_witness :
    filter_unwanted_records filterT "nope" = filterT ∧
      sort_dataframe filterT "締結日" "From" = (filterT, filterT) :=
  ⟨(missing_column_noop filterT "nope" "a" "b").1 (by decide),
   (missing_column_noop filterT "x" "締結日" "From").2 (Or.inl (by decide))⟩

/-- C7: the allocator always returns one of the four statuses as data, and
an `error` outcome carries an empty record set and a zero total. -/
theorem alloc_error_as_data (df : Table) (amt : Int) (p : Date) (bcol fcol : String) :
    ((calculate_payment_allocation df amt p bcol fcol).2.status = "sufficient" ∨
     (calculate_payment_allocation df amt p bcol fcol).2.status = "insufficient" ∨
     (calculate_payment_allocation df amt p bcol fcol).2.status = "no_records" ∨
     (calculate_payment_allocation df amt p bcol fcol).2.status = "error") ∧
    ((calculate_payment_allocation df amt p bcol fcol).2.status = "error" →
      (calculate_payment_allocation df amt p bcol fcol).2.records.rows = [] ∧
      (calculate_payment_allocation df amt p bcol fcol).2.total_balance = 0) := by
  rcases calc_cases df amt p bcol fcol with ⟨-, hres, -⟩ | ⟨fi, -, -, hcs⟩
  · exact ⟨Or.inr (Or.inr (Or.inr ((congrArg AllocResult.status hres).trans rfl))),
      fun _ => ⟨(congrArg (fun x => x.records.rows) hres).trans rfl,
        (congrArg AllocResult.total_balance hres).trans rfl⟩⟩
  · rcases hcs with ⟨hm, hst, hrec, htot, hsh, hsp⟩ | ⟨hm, hbn, hres⟩ |
      ⟨bi, k, hm, hb, hk, hst, hrec, htot, hsp, hsh⟩ | ⟨bi, hm, hb, hk, hst, hrec, htot, hsh, hsp⟩
    · exact ⟨Or.inr (Or.inr (Or.inl hst)),
        fun hc => absurd (hst.symm.trans hc) (by decide)⟩
    · exact ⟨Or.inr (Or.inr (Or.inr ((congrArg AllocResult.status hres).trans rfl))),
        fun _ => ⟨(congrArg (fun x => x.records.rows) hres).trans rfl,
          (congrArg AllocResult.total_balance hres).trans rfl⟩⟩
    · exact ⟨Or.inl hst, fun hc => absurd (hst.symm.trans hc) (by decide)⟩
    · exact ⟨Or.inr (Or.inl hst), fun hc => absurd (hst.symm.trans hc) (by decide)⟩

/-- C7 witness: binding a from-date column the table does not have ends in
the `error` outcome with empty records and zero total, not an exception. -/
theorem alloc_error_as_data_witness :
    (calculate_payment_allocation filterT 5 mayDue "Bal" "From").2.records.rows = [] ∧
    (calculate_payment_allocation filterT 5 mayDue "Bal" "From").2.total_balance = 0 :=
  (alloc_error_as_data filterT 5 mayDue "Bal" "From").2 rfl

/-- C1: in every status the returned `selected_records` rows are a
take-prefix of the allocator's month-scoped working rows (never a
non-contiguous or reordered subset); when the status is `sufficient` the
prefix ends exactly at the first row whose cumulative column meets or
exceeds the payment amount. -/
theorem alloc_selected_take (df : Table) (amt : Int) (p : Date) (bcol fcol : String) :
    (∃ n, (calculate_payment_allocation df amt p bcol fcol).2.records.rows =
      (allocProc df bcol fcol p).take n) ∧
    ((calculate_payment_allocation df amt p bcol fcol).2.status = "sufficient" →
      ∃ k, (calculate_payment_allocation df amt p bcol fcol).2.records.rows =
          (allocProc df bcol fcol p).take (k + 1) ∧
        (∃ r, (allocProc df bcol fcol p).get? k = some r ∧
          amt ≤ numOf (getCell r (cumIdx df.cols))) ∧
        (∀ j r', j < k → (allocProc df bcol fcol p).get? j = some r' →
          numOf (getCell r' (cumIdx df.cols)) < amt)) := by
  rcases calc_cases df amt p bcol fcol with ⟨-, hres, -⟩ | ⟨fi, -, -, hcs⟩
  · exact ⟨⟨0, (congrArg (fun x => x.records.rows) hres).trans rfl⟩,
      fun hc => absurd ((congrArg AllocResult.status hres).symm.trans hc) (by decide)⟩
  · rcases hcs with ⟨hm, hst, hrec, htot, hsh, hsp⟩ | ⟨hm, hbn, hres⟩ |
      ⟨bi, k, hm, hb, hk, hst, hrec, htot, hsp, hsh⟩ | ⟨bi, hm, hb, hk, hst, hrec, htot, hsh, hsp⟩
    · exact ⟨⟨0, hrec.trans rfl⟩, fun hc => absurd (hst.symm.trans hc) (by decide)⟩
    · exact ⟨⟨0, (congrArg (fun x => x.records.rows) hres).trans rfl⟩,
        fun hc => absurd ((congrArg AllocResult.status hres).symm.trans hc) (by decide)⟩
    · have hspec := firstIdxGe_some amt (cumIdx df.cols) hk
      exact ⟨⟨k + 1, hrec⟩,
        fun _ => ⟨k, hrec, hspec.1, fun j r' hj hr' => hspec.2 j r' hj hr'⟩⟩
    · exact ⟨⟨(allocProc df bcol fcol p).length, hrec.trans (List.take_length _).symm⟩,
        fun hc => absurd (hst.symm.trans hc) (by decide)⟩

/-- C1 witness: the spec's scenario-2 ledger with payment 1000000 due
2024-05-15 ends `sufficient`, selecting a two-record prefix. -/
theorem alloc_selected_take_witness :
    ∃ k, (calculate_payment_allocation ledgerT 1000000 mayDue "紐づけ後残高" "From").2.records.rows =
        (allocProc ledgerT "紐づけ後残高" "From" mayDue).take (k + 1) ∧
      (∃ r, (allocProc ledgerT "紐づけ後残高" "From" mayDue).get? k = some r ∧
        1000000 ≤ numOf (getCell r (cumIdx ledgerT.cols))) ∧
      (∀ j r', j < k → (allocProc ledgerT "紐づけ後残高" "From" mayDue).get? j = some r' →
        numOf (getCell r' (cumIdx ledgerT.cols)) < 1000000) :=
  (alloc_selected_take ledgerT 1000000 mayDue "紐づけ後残高" "From").2 (by decide)

theorem allocProc_eq {df : Table} {bcol : String} {bi : Nat}
    (hb : colIdx df.cols bcol = some bi) (fcol : String) (p : Date) :
    allocProc df bcol fcol p =
      addCumsum bi (cumIdx df.cols) 0 ((monthRows df fcol p).map (coerceBal bi)) := by
  unfold allocProc
  rw [hb]

theorem length_allocProc {df : Table} {bcol : String} {bi : Nat}
    (hb : colIdx df.cols bcol = some bi) (fcol : String) (p : Date) :
    (allocProc df bcol fcol p).length = (monthRows df fcol p).length := by
  rw [allocProc_eq hb, length_addCumsum, List.length_map]

theorem cum_value {df : Table} {bcol : String} {bi : Nat}
    (hb : colIdx df.cols bcol = some bi) {fcol : String} {p : Date}
    {k : Nat} {r : Row} (hr : (allocProc df bcol fcol p).get? k = some r) :
    numOf (getCell r (cumIdx df.cols)) =
      sumBal bi ((monthRows df fcol p).take (k + 1)) := by
  rw [allocProc_eq hb, addCumsum_get?] at hr
  cases hL : ((monthRows df fcol p).map (coerceBal bi)).get? k with
  | none => rw [hL] at hr; exact absurd hr (by simp)
  | some r0 =>
      rw [hL] at hr
      simp only [Option.map_some'] at hr
      injection hr with hr
      subst hr
      rw [getCell_putCell_self]
      show (0 : Int) + sumBal bi (((monthRows df fcol p).map (coerceBal bi)).take (k + 1)) =
        sumBal bi ((monthRows df fcol p).take (k + 1))
      rw [zero_add, ← List.map_take, sumBal_coerceMap]

theorem sumBal_take_allocProc {df : Table} {bcol : String} {bi : Nat}
    (hb : colIdx df.cols bcol = some bi) (hbc : bcol ≠ cumCol)
    (fcol : String) (p : Date) (n : Nat) :
    sumBal bi ((allocProc df bcol fcol p).take n) =
      sumBal bi ((monthRows df fcol p).take n) := by
  rw [allocProc_eq hb, take_addCumsum, sumBal_addCumsum (bi_ne_cumIdx hb hbc),
    ← List.map_take, sumBal_coerceMap]

theorem sumBal_allocProc {df : Table} {bcol : String} {bi : Nat}
    (hb : colIdx df.cols bcol = some bi) (hbc : bcol ≠ cumCol)
    (fcol : String) (p : Date) :
    sumBal bi (allocProc df bcol fcol p) = sumBal bi (monthRows df fcol p) := by
  rw [allocProc_eq hb, sumBal_addCumsum (bi_ne_cumIdx hb hbc), sumBal_coerceMap]

/-- C2 (amended): on a `sufficient` outcome the reported total is the
balance sum over the selected records, it meets or exceeds the payment
amount, and the reported remainder is their non-negative difference;
the selected prefix is minimal whenever the payment amount is positive.
Provisos: the balance-column binding is not the reserved cumulative column
name, and minimality is asserted only for a positive payment amount. -/
theorem alloc_sufficient_boundary (df : Table) (amt : Int) (p : Date) (bcol fcol : String)
    (hsuf : (calculate_payment_allocation df amt p bcol fcol).2.status = "sufficient")
    (hbc : bcol ≠ cumCol) :
    ∃ bi, colIdx df.cols bcol = some bi ∧
      (calculate_payment_allocation df amt p bcol fcol).2.total_balance =
        sumBal bi (calculate_payment_allocation df amt p bcol fcol).2.records.rows ∧
      amt ≤ (calculate_payment_allocation df amt p bcol fcol).2.total_balance ∧
      (calculate_payment_allocation df amt p bcol fcol).2.split_remainder =
        some ((calculate_payment_allocation df amt p bcol fcol).2.total_balance - amt) ∧
      0 ≤ (calculate_payment_allocation df amt p bcol fcol).2.total_balance - amt ∧
      (0 < amt →
        sumBal bi
          ((calculate_payment_allocation df amt p bcol fcol).2.records.rows.dropLast) < amt) := by
  rcases calc_cases df amt p bcol fcol with ⟨-, hres, -⟩ | ⟨fi, -, -, hcs⟩
  · exact absurd ((congrArg AllocResult.status hres).symm.trans hsuf) (by decide)
  · rcases hcs with ⟨hm, hst, hrec, htot, hsh, hsp⟩ | ⟨hm, hbn, hres⟩ |
      ⟨bi, k, hm, hb, hk, hst, hrec, htot, hsp, hsh⟩ | ⟨bi, hm, hb, hk, hst, hrec, htot, hsh, hsp⟩
    · exact absurd (hst.symm.trans hsuf) (by decide)
    · exact absurd ((congrArg AllocResult.status hres).symm.trans hsuf) (by decide)
    · obtain ⟨⟨r, hrP, hge⟩, hlt⟩ := firstIdxGe_some amt (cumIdx df.cols) hk
      have hkl : k < (allocProc df bcol fcol p).length := by
        obtain ⟨hh, -⟩ := List.get?_eq_some.mp hrP
        exact hh
      have hsums : sumBal bi ((allocProc df bcol fcol p).take (k + 1)) =
          sumBal bi ((monthRows df fcol p).take (k + 1)) :=
        sumBal_take_allocProc hb hbc fcol p (k + 1)
      have hamt : amt ≤ sumBal bi ((allocProc df bcol fcol p).take (k + 1)) := by
        rw [hsums, ← cum_value hb hrP]
        exact hge
      refine ⟨bi, hb, ?_, ?_, ?_, ?_, ?_⟩
      · rw [htot, hrec]
      · rw [htot]
        exact hamt
      · rw [hsp, htot]
      · rw [htot]
        omega
      · intro hpos
        rw [hrec]
        have hdrop : (((allocProc df bcol fcol p).take (k + 1)).dropLast) =
            (allocProc df bcol fcol p).take k := by
          rw [List.dropLast_eq_take, List.length_take, List.take_take]
          congr 1
          omega
        rw [hdrop, sumBal_take_allocProc hb hbc fcol p k]
        cases k with
        | zero => simpa [sumBal_nil] using hpos
        | succ m =>
            have hml : m < (allocProc df bcol fcol p).length := by omega
            have hm2 := List.get?_eq_get hml
            have hlt2 := hlt m _ (by omega) hm2
            rw [cum_value hb hm2] at hlt2
            exact hlt2
    · exact absurd (hst.symm.trans hsuf) (by decide)

/-- C2 counterexample: with payment amount 0 and a single May record of
balance 5 the status is `sufficient` but removing the last (only) selected
record leaves an empty prefix summing to 0, which is not `< 0`: the
minimality conjunct of the claim fails as stated. -/
theorem alloc_sufficient_minimality_cex :
    (calculate_payment_allocation zeroAmtT 0 mayDue "Bal" "From").2.status = "sufficient" ∧
    colIdx zeroAmtT.cols "Bal" = some 1 ∧
    ¬ (sumBal 1
        ((calculate_payment_allocation zeroAmtT 0 mayDue "Bal" "From").2.records.rows.dropLast)
        < 0) := by decide

/-- C2 witness: the scenario-2 ledger, payment 1000000 due 2024-05-15:
the total of the selected records covers the payment. -/
theorem alloc_sufficient_boundary_witness :
    1000000 ≤
      (calculate_payment_allocation ledgerT 1000000 mayDue "紐づけ後残高" "From").2.total_balance := by
  obtain ⟨bi, -, -, hle, -⟩ :=
    alloc_sufficient_boundary ledgerT 1000000 mayDue "紐づけ後残高" "From" (by decide) (by decide)
  exact hle

/-- C3 (amended): on an `insufficient` outcome the selected records are
the entire month-scoped working set, the reported total is their balance
sum (equal to the month-scoped balance sum), that total is strictly below
the payment amount, and the reported shortfall is their strictly positive
difference.  Proviso: the balance-column binding is not the reserved
cumulative column name. -/
theorem alloc_insufficient_boundary (df : Table) (amt : Int) (p : Date) (bcol fcol : String)
    (hins : (calculate_payment_allocation df amt p bcol fcol).2.status = "insufficient")
    (hbc : bcol ≠ cumCol) :
    ∃ bi, colIdx df.cols bcol = some bi ∧
      (calculate_payment_allocation df amt p bcol fcol).2.records.rows =
        allocProc df bcol fcol p ∧
      (calculate_payment_allocation df amt p bcol fcol).2.records.rows.length =
        (monthRows df fcol p).length ∧
      (calculate_payment_allocation df amt p bcol fcol).2.total_balance =
        sumBal bi (calculate_payment_allocation df amt p bcol fcol).2.records.rows ∧
      (calculate_payment_allocation df amt p bcol fcol).2.total_balance =
        sumBal bi (monthRows df fcol p) ∧
      (calculate_payment_allocation df amt p bcol fcol).2.total_balance < amt ∧
      (calculate_payment_allocation df amt p bcol fcol).2.shortage =
        some (amt - (calculate_payment_allocation df amt p bcol fcol).2.total_balance) ∧
      0 < amt - (calculate_payment_allocation df amt p bcol fcol).2.total_balance := by
  rcases calc_cases df amt p bcol fcol with ⟨-, hres, -⟩ | ⟨fi, -, -, hcs⟩
  · exact absurd ((congrArg AllocResult.status hres).symm.trans hins) (by decide)
  · rcases hcs with ⟨hm, hst, hrec, htot, hsh, hsp⟩ | ⟨hm, hbn, hres⟩ |
      ⟨bi, k, hm, hb, hk, hst, hrec, htot, hsp, hsh⟩ | ⟨bi, hm, hb, hk, hst, hrec, htot, hsh, hsp⟩
    · exact absurd (hst.symm.trans hins) (by decide)
    · exact absurd ((congrArg AllocResult.status hres).symm.trans hins) (by decide)
    · exact absurd (hst.symm.trans hins) (by decide)
    · have hfull : sumBal bi (allocProc df bcol fcol p) = sumBal bi (monthRows df fcol p) :=
        sumBal_allocProc hb hbc fcol p
      have hmlen : 0 < (monthRows df fcol p).length := by
        cases hmr : monthRows df fcol p with
        | nil => exact absurd hmr hm
        | cons a tl => simp [hmr]
      have hplen : 0 < (allocProc df bcol fcol p).length := by
        rw [length_allocProc hb]
        exact hmlen
      have hn : (allocProc df bcol fcol p).length - 1 < (allocProc df bcol fcol p).length := by
        omega
      have hget := List.get?_eq_get hn
      have hlast := firstIdxGe_none amt (cumIdx df.cols) hk hget
      rw [cum_value hb hget] at hlast
      have htake : (allocProc df bcol fcol p).length - 1 + 1 = (monthRows df fcol p).length := by
        rw [length_allocProc hb]
        omega
      rw [htake, List.take_length] at hlast
      refine ⟨bi, hb, hrec, ?_, ?_, ?_, ?_, ?_, ?_⟩
      · rw [hrec, length_allocProc hb]
      · rw [htot, hrec]
      · rw [htot]
        exact hfull
      · rw [htot, hfull]
        exact hlast
      · rw [hsh, htot]
      · rw [htot, hfull]
        omega

/-- C3 counterexample: a table owning a `累積残高` column bound as the
balance column; the allocator overwrites it with cumulative sums before
summing, reporting total 6 against payment 4 with status `insufficient`
and shortfall −2 — the claim's `total < payment` and `shortfall > 0` both
fail as stated. -/
theorem alloc_insufficient_alias_cex :
    (calculate_payment_allocation aliasT 4 mayDue "累積残高" "From").2.status = "insufficient" ∧
    ¬ ((calculate_payment_allocation aliasT 4 mayDue "累積残高" "From").2.total_balance < 4) ∧
    (calculate_payment_allocation aliasT 4 mayDue "累積残高" "From").2.shortage =
      some (-2) := by decide

/-- C3 witness: the scenario-3 ledger, payment 5000000 due 2024-05-15:
the month-scoped total falls short of the payment. -/
theorem alloc_insufficient_boundary_witness :
    (calculate_payment_allocation ledgerT 5000000 mayDue "紐づけ後残高" "From").2.total_balance
      < 5000000 := by
  obtain ⟨bi, -, -, -, -, -, hlt, -, -⟩ :=
    alloc_insufficient_boundary ledgerT 5000000 mayDue "紐づけ後残高" "From" (by decide) (by decide)
  exact hlt

theorem inMonth_elim {p : Date} {c : Cell} (h : inMonth p c = true) :
    ∃ d, c = Cell.date d ∧ d.year = p.year ∧ d.month = p.month := by
  cases c with
  | date d =>
      refine ⟨d, rfl, ?_⟩
      simpa [inMonth, decide_eq_true_eq] using h
  | null => exact absurd h (by simp [inMonth])
  | str s => exact absurd h (by simp [inMonth])
  | num n => exact absurd h (by simp [inMonth])

/-- C10: a record whose from-date cell does not parse as a date is never
in the month-scoped subset; every month-scoped record — and hence every
selected record, under non-aliased column bindings — carries a parsed
from-date lying in the due month. -/
theorem undated_never_selected (df : Table) (amt : Int) (p : Date) (bcol fcol : String)
    {fi : Nat} (hf : colIdx df.cols fcol = some fi)
    (hfb : fcol ≠ bcol) (hfc : fcol ≠ cumCol) :
    (∀ r ∈ monthRows df fcol p,
      ∃ d, getCell r fi = Cell.date d ∧ d.year = p.year ∧ d.month = p.month) ∧
    (∀ r' ∈ (calculate_payment_allocation df amt p bcol fcol).2.records.rows,
      ∃ d, getCell r' fi = Cell.date d ∧ d.year = p.year ∧ d.month = p.month) := by
  have hpart1 : ∀ r ∈ monthRows df fcol p,
      ∃ d, getCell r fi = Cell.date d ∧ d.year = p.year ∧ d.month = p.month := by
    intro r hr
    unfold monthRows at hr
    rw [hf] at hr
    exact inMonth_elim (List.mem_filter.mp hr).2
  refine ⟨hpart1, ?_⟩
  have hmem : ∀ r' ∈ allocProc df bcol fcol p,
      ∃ d, getCell r' fi = Cell.date d ∧ d.year = p.year ∧ d.month = p.month := by
    intro r' hr'
    cases hb : colIdx df.cols bcol with
    | none =>
        unfold allocProc at hr'
        rw [hb] at hr'
        exact absurd hr' (by simp)
    | some bi =>
        rw [allocProc_eq hb] at hr'
        obtain ⟨q, hq, v, rfl⟩ := mem_addCumsum _ _ hr'
        obtain ⟨m, hm, rfl⟩ := List.mem_map.mp hq
        have hfi_ci : fi ≠ cumIdx df.cols := bi_ne_cumIdx hf hfc
        have hfi_bi : fi ≠ bi := colIdx_ne_of_ne df.cols hf hb hfb
        rw [getCell_putCell_ne _ _ hfi_ci, coerceBal, getCell_setCellAt_ne _ _ hfi_bi]
        exact hpart1 m hm
  intro r' hr'
  rcases calc_cases df amt p bcol fcol with ⟨-, hres, -⟩ | ⟨fi2, -, -, hcs⟩
  · rw [hres] at hr'
    exact absurd hr' (by simp [errorResult])
  · rcases hcs with ⟨hm, hst, hrec, htot, hsh, hsp⟩ | ⟨hm, hbn, hres⟩ |
      ⟨bi, k, hm, hb, hk, hst, hrec, htot, hsp, hsh⟩ | ⟨bi, hm, hb, hk, hst, hrec, htot, hsh, hsp⟩
    · rw [hrec] at hr'
      exact absurd hr' (by simp)
    · rw [hres] at hr'
      exact absurd hr' (by simp [errorResult])
    · rw [hrec] at hr'
      exact hmem r' (List.take_subset _ _ hr')
    · rw [hrec] at hr'
      exact hmem r' hr'

/-- C10 witness: a table with an unparseable from-date next to a dated May
record; the selected record is the dated one, in the due month. -/
theorem undated_never_selected_witness :
    ∃ d, getCell [Cell.date ⟨2024, 5, 2⟩, Cell.num 7, Cell.num 7] 0 = Cell.date d ∧
      d.year = mayDue.year ∧ d.month = mayDue.month :=
  (undated_never_selected nullFromT 5 mayDue "Bal" "From" rfl (by decide) (by decide)).2
    [Cell.date ⟨2024, 5, 2⟩, Cell.num 7, Cell.num 7] (by decide)

/-! ### Sorter and mutation lemmas -/

theorem cols_coerceDateCol (t : Table) (c : String) : (coerceDateCol t c).cols = t.cols := by
  unfold coerceDateCol
  cases colIdx t.cols c <;> rfl

theorem coerceDateCol_eq {t : Table} {c : String} {i : Nat} (h : colIdx t.cols c = some i) :
    coerceDateCol t c = { cols := t.cols, rows := t.rows.map (stepDate i) } := by
  unfold coerceDateCol
  rw [h]

theorem coerceDateCol_of_none {t : Table} {c : String} (h : colIdx t.cols c = none) :
    coerceDateCol t c = t := by
  unfold coerceDateCol
  rw [h]

theorem coerce2_eq {df : Table} {c1 c2 : String} {i1 i2 : Nat}
    (h1 : colIdx df.cols c1 = some i1) (h2 : colIdx df.cols c2 = some i2) :
    coerceDateCol (coerceDateCol df c1) c2 =
      { cols := df.cols, rows := (df.rows.map (stepDate i1)).map (stepDate i2) } := by
  rw [coerceDateCol_eq h1]
  exact coerceDateCol_eq h2

theorem sort_dataframe_eq {df : Table} {c1 c2 : String} {i1 i2 : Nat}
    (h1 : colIdx df.cols c1 = some i1) (h2 : colIdx df.cols c2 = some i2) :
    sort_dataframe df c1 c2 =
      ({ cols := df.cols, rows := (df.rows.map (stepDate i1)).map (stepDate i2) },
       { cols := df.cols,
         rows := ((df.rows.map (stepDate i1)).map (stepDate i2)).mergeSort (rowLeB i1 i2) }) := by
  unfold sort_dataframe
  rw [h1, h2, coerce2_eq h1 h2]

theorem map_stepDate_idem (i : Nat) (l : List Row) :
    (l.map (stepDate i)).map (stepDate i) = l.map (stepDate i) := by
  induction l with
  | nil => rfl
  | cons r tl ih => simp only [List.map_cons, ih, stepDate_idem]

theorem coerceDateCol_idem (t : Table) (c : String) :
    coerceDateCol (coerceDateCol t c) c = coerceDateCol t c := by
  cases h : colIdx t.cols c with
  | none => rw [coerceDateCol_of_none h, coerceDateCol_of_none h]
  | some i =>
      have h2 : colIdx ({ cols := t.cols,
                            rows := t.rows.map (stepDate i) } : Table).cols c = some i := h
      rw [coerceDateCol_eq h, coerceDateCol_eq h2]
      show ({ cols := t.cols, rows := (t.rows.map (stepDate i)).map (stepDate i) } : Table) =
        { cols := t.cols, rows := t.rows.map (stepDate i) }
      rw [map_stepDate_idem]

theorem step2_idem (i1 i2 : Nat) (r : Row) :
    stepDate i2 (stepDate i1 (stepDate i2 (stepDate i1 r))) = stepDate i2 (stepDate i1 r) := by
  by_cases h : i1 = i2
  · subst h
    simp only [stepDate_idem]
  · rw [stepDate_comm (stepDate i1 r) h, stepDate_idem, stepDate_idem]

theorem map_step2_idem (i1 i2 : Nat) (l : List Row) :
    ((((l.map (stepDate i1)).map (stepDate i2)).map (stepDate i1)).map (stepDate i2)) =
      (l.map (stepDate i1)).map (stepDate i2) := by
  induction l with
  | nil => rfl
  | cons r tl ih => simp only [List.map_cons, ih, step2_idem]

theorem monthRows_coerce (df : Table) (fcol : String) (p : Date) :
    monthRows (coerceDateCol df fcol) fcol p = monthRows df fcol p := by
  cases h : colIdx df.cols fcol with
  | none => rw [coerceDateCol_of_none h]
  | some fi =>
      unfold monthRows
      rw [cols_coerceDateCol, h, coerceDateCol_idem]

theorem allocProc_coerce (df : Table) (bcol fcol : String) (p : Date) :
    allocProc (coerceDateCol df fcol) bcol fcol p = allocProc df bcol fcol p := by
  unfold allocProc
  rw [cols_coerceDateCol, monthRows_coerce]

theorem calc_rerun (df : Table) (amt : Int) (p : Date) (bcol fcol : String) :
    (calculate_payment_allocation (coerceDateCol df fcol) amt p bcol fcol).2 =
      (calculate_payment_allocation df amt p bcol fcol).2 := by
  cases hf : colIdx df.cols fcol with
  | none =>
      unfold calculate_payment_allocation
      rw [cols_coerceDateCol, hf]
  | some fi =>
      unfold calculate_payment_allocation
      rw [cols_coerceDateCol, hf, monthRows_coerce, allocProc_coerce, coerceDateCol_idem]

theorem sort_rerun (df : Table) (c1 c2 : String) {i1 i2 : Nat}
    (h1 : colIdx df.cols c1 = some i1) (h2 : colIdx df.cols c2 = some i2) :
    sort_dataframe ((sort_dataframe df c1 c2).1) c1 c2 = sort_dataframe df c1 c2 := by
  have hfst : (sort_dataframe df c1 c2).1 =
      ({ cols := df.cols, rows := (df.rows.map (stepDate i1)).map (stepDate i2) } : Table) := by
    rw [sort_dataframe_eq h1 h2]
  rw [hfst]
  have h1' : colIdx ({ cols := df.cols,
                        rows := (df.rows.map (stepDate i1)).map (stepDate i2) } :
      Table).cols c1 = some i1 := h1
  have h2' : colIdx ({ cols := df.cols,
                        rows := (df.rows.map (stepDate i1)).map (stepDate i2) } :
      Table).cols c2 = some i2 := h2
  rw [sort_dataframe_eq h1' h2', sort_dataframe_eq h1 h2]
  simp only [Prod.mk.injEq, Table.mk.injEq, map_step2_idem, and_self, true_and]

/-- C5: with both date columns present, the sorter output is ordered
ascending by the composite (agreement date, from-date) key computed on the
coerced cells — nulls strictly after all dates, independently per key
position — and records with identical composite keys keep their input
relative order (stable sort). -/
theorem sort_ordered_stable (df : Table) (c1 c2 : String) {i1 i2 : Nat}
    (h1 : colIdx df.cols c1 = some i1) (h2 : colIdx df.cols c2 = some i2) :
    List.Pairwise (rowLe i1 i2) (sort_dataframe df c1 c2).2.rows ∧
    (∀ a b : Row, List.Sublist [a, b] df.rows →
      keyPair i1 i2 a = keyPair i1 i2 b →
      List.Sublist [stepDate i2 (stepDate i1 a), stepDate i2 (stepDate i1 b)]
        (sort_dataframe df c1 c2).2.rows) := by
  rw [sort_dataframe_eq h1 h2]
  constructor
  · have hs := List.sorted_mergeSort (rowLeB_trans i1 i2) (rowLeB_total i1 i2)
      ((df.rows.map (stepDate i1)).map (stepDate i2))
    exact hs.imp (fun hab => of_decide_eq_true hab)
  · intro a b hab hk
    have hpres : ∀ r : Row, keyPair i1 i2 (stepDate i2 (stepDate i1 r)) = keyPair i1 i2 r := by
      intro r
      unfold keyPair
      rw [toDate_getCell_stepDate, toDate_getCell_stepDate, toDate_getCell_stepDate,
        toDate_getCell_stepDate]
    have hfk := (hpres a).trans (hk.trans (hpres b).symm)
    have hco : Cell.toDate (getCell (stepDate i2 (stepDate i1 a)) i1) =
          Cell.toDate (getCell (stepDate i2 (stepDate i1 b)) i1) ∧
        Cell.toDate (getCell (stepDate i2 (stepDate i1 a)) i2) =
          Cell.toDate (getCell (stepDate i2 (stepDate i1 b)) i2) := by
      unfold keyPair at hfk
      exact ⟨congrArg Prod.fst hfk, congrArg Prod.snd hfk⟩
    have hle : rowLeB i1 i2 (stepDate i2 (stepDate i1 a)) (stepDate i2 (stepDate i1 b)) = true :=
      decide_eq_true (Or.inr ⟨hco.1, Or.inr hco.2⟩)
    apply List.sublist_mergeSort (rowLeB_trans i1 i2) (rowLeB_total i1 i2)
    · refine List.Pairwise.cons (fun y hy => ?_) ?_
      · rw [List.mem_singleton.mp hy]
        exact hle
      · exact List.pairwise_singleton _ _
    · have hs := (hab.map (stepDate i1)).map (stepDate i2)
      simpa using hs

/-- C5 witness: a four-record table with ties and nulls, both date columns
bound; the output is ordered by the composite key. -/
theorem sort_ordered_stable_witness :
    List.Pairwise (rowLe 0 1) (sort_dataframe sortT "締結日" "From").2.rows :=
  (sort_ordered_stable sortT "締結日" "From" rfl rfl).1

/-- C8 counterexample: a one-record table whose agreement-date cell is an
unparseable string; sorting returns that record with the cell coerced to
null, so the output is not a permutation of the input — the record was
altered. -/
theorem sort_perm_cex :
    ¬ List.Perm (sort_dataframe garbleT "締結日" "From").2.rows garbleT.rows := by
  intro h
  have h2 : ((garbleT.rows.map (stepDate 0)).map (stepDate 1)).Perm garbleT.rows :=
    (List.mergeSort_perm ((garbleT.rows.map (stepDate 0)).map (stepDate 1))
      (rowLeB 0 1)).symm.trans h
  exact absurd h2 (by decide)

/-- C8 (amended): with both date columns present, the sorter output is a
permutation of its input after the two bound date columns are coerced to
dates (unparseable and missing values becoming null); no record is created
or dropped — the row count is preserved — but date cells can be altered by
the coercion. -/
theorem sort_perm_coerced (df : Table) (c1 c2 : String) {i1 i2 : Nat}
    (h1 : colIdx df.cols c1 = some i1) (h2 : colIdx df.cols c2 = some i2) :
    List.Perm (sort_dataframe df c1 c2).2.rows
      (coerceDateCol (coerceDateCol df c1) c2).rows ∧
    (sort_dataframe df c1 c2).2.rows.length = df.rows.length := by
  rw [sort_dataframe_eq h1 h2, coerce2_eq h1 h2]
  constructor
  · exact List.mergeSort_perm _ _
  · rw [(List.mergeSort_perm _ _).length_eq]
    simp

/-- C8 witness: the four-record sort table keeps its row count. -/
theorem sort_perm_coerced_witness :
    (sort_dataframe sortT "締結日" "From").2.rows.length = sortT.rows.length :=
  (sort_perm_coerced sortT "締結日" "From" rfl rfl).2

/-- C9 counterexample: sorting a table holding an unparseable date string
changes the caller's table — the date column is coerced in place, so the
stage does not leave its input unmodified. -/
theorem stage_mutation_cex : (sort_dataframe garbleT "締結日" "From").1 ≠ garbleT := by decide

/-- C9 (amended): the sorter and the allocator mutate their input table
exactly by coercing the bound date column(s) in place; the coercion is
idempotent, so a re-run over the already-mutated table returns the same
results — runs remain independent even though the input is not copied. -/
theorem stage_mutation (df : Table) (c1 c2 bcol fcol : String) (amt : Int) (p : Date)
    {i1 i2 fi : Nat} (h1 : colIdx df.cols c1 = some i1) (h2 : colIdx df.cols c2 = some i2)
    (hf : colIdx df.cols fcol = some fi) :
    (sort_dataframe df c1 c2).1 = coerceDateCol (coerceDateCol df c1) c2 ∧
    (calculate_payment_allocation df amt p bcol fcol).1 = coerceDateCol df fcol ∧
    coerceDateCol (coerceDateCol df fcol) fcol = coerceDateCol df fcol ∧
    (calculate_payment_allocation ((calculate_payment_allocation df amt p bcol fcol).1)
        amt p bcol fcol).2 = (calculate_payment_allocation df amt p bcol fcol).2 ∧
    sort_dataframe ((sort_dataframe df c1 c2).1) c1 c2 = sort_dataframe df c1 c2 := by
  have hmut : (calculate_payment_allocation df amt p bcol fcol).1 = coerceDateCol df fcol := by
    rcases calc_cases df amt p bcol fcol with ⟨hn, -, -⟩ | ⟨fi2, -, hmut, -⟩
    · rw [hf] at hn
      exact absurd hn (by simp)
    · exact hmut
  refine ⟨?_, hmut, coerceDateCol_idem df fcol, ?_, sort_rerun df c1 c2 h1 h2⟩
  · rw [sort_dataframe_eq h1 h2, coerce2_eq h1 h2]
  · rw [hmut, calc_rerun]

/-- C9 witness: the sort table with from-date bound for allocation; the
allocator's final input value is the date-coerced table. -/
theorem stage_mutation_witness :
    (calculate_payment_allocation sortT 5 mayDue "Bal" "From").1 = coerceDateCol sortT "From" :=
  (stage_mutation sortT "締結日" "From" "Bal" "From" 5 mayDue rfl rfl rfl).2.1

end ImportFx
